import Mathlib

/-!
Shallow embedding of the `pmv::polymorphic_value` header (polymorphic_value.h)
and proofs about it.

Modelling conventions:
* A concrete C++ type is abstracted as a `Ty`: its `sizeof`, `alignof` and
  whether it is nothrow-move-constructible.  A type environment `Nat → Ty`
  maps type ids to types.
* A stored object (`Obj`) carries the type id it was constructed as and an
  abstract payload value.  A raw (non-erased) argument (`RawVal`) additionally
  carries its dynamic type id (`typeid` of the referenced object), which may
  be a strict subtype of the declared static type.
* The heap is a map from addresses to live objects plus a bump allocator and
  an allocation `fuel`; exhausted fuel makes `operator new` throw
  `std::bad_alloc` (`Err.badAlloc`).
* Every operation returns the list of observable events it performs
  (allocation, deallocation, and the special member function of the contained
  type it invokes), mirroring the counters instrumented by the test suite.
* `Outcome` distinguishes a normal return, a propagated C++ exception
  (`thrown`), and `std::terminate` (`terminated`), which is reached when an
  exception escapes a `noexcept` function.
-/

set_option linter.unusedVariables false

namespace PolyVal

/-- Abstraction of a concrete C++ class type: its size, alignment, and
whether `std::is_nothrow_move_constructible` holds for it. -/
structure Ty where
  size : Nat
  align : Nat
  nothrowMove : Bool
deriving DecidableEq

/-- A live object: the type id it was constructed as, and its payload. -/
structure Obj where
  tid : Nat
  val : Nat
deriving DecidableEq

/-- A raw (non-type-erased) argument of declared static type `tid` whose
referenced object has dynamic type `dyntid` (`dyntid = tid` unless the caller
passed a further-derived object through a less-derived static type). -/
structure RawVal where
  tid : Nat
  dyntid : Nat
  val : Nat
deriving DecidableEq

/-- C++ exceptions that the container logic itself can raise or see:
`std::bad_alloc` from `operator new`, and `pmv::bad_polymorphic_value`. -/
inductive Err where
  | badAlloc : Err
  | badPoly : String → Err
deriving DecidableEq

/-- Result of running a container operation: normal completion, a C++
exception propagated to the caller, or `std::terminate` (an exception
escaped a `noexcept` function). -/
inductive Outcome (α : Type) where
  | ok : α → Outcome α
  | thrown : Err → Outcome α
  | terminated : Outcome α

/-- Observable events: allocator calls and invocations of the contained
type's special member functions (tagged with the type id they run on). -/
inductive Ev where
  | alloc : Ev
  | dealloc : Ev
  | construct : Nat → Ev
  | copyCtor : Nat → Ev
  | moveCtor : Nat → Ev
  | copyAsgn : Nat → Ev
  | moveAsgn : Nat → Ev
  | destroyed : Nat → Ev
deriving DecidableEq

/-- The process heap: contents, a bump allocator, and remaining allocation
fuel (0 fuel makes the next `operator new` fail with `bad_alloc`). -/
structure Heap where
  mem : Nat → Option Obj
  next : Nat
  fuel : Nat

/-- Allocate a fresh block holding `o` (`new Derived{...}`); fails with
`bad_alloc` when fuel is exhausted. -/
def Heap.alloc (h : Heap) (o : Obj) : Except Err (Nat × Heap) :=
  match h.fuel with
  | 0 => .error .badAlloc
  | f + 1 => .ok (h.next, ⟨fun a => if a = h.next then some o else h.mem a, h.next + 1, f⟩)

/-- Release the block at address `a` (`operator delete`). -/
def Heap.free (h : Heap) (a : Nat) : Heap :=
  { h with mem := fun b => if b = a then none else h.mem b }

/-- Overwrite the object at address `a` (assignment through the pointee). -/
def Heap.write (h : Heap) (a : Nat) (o : Obj) : Heap :=
  { h with mem := fun b => if b = a then some o else h.mem b }

/-- The storage cell: the union inside `sbo_storage`, which at any time holds
either an in-buffer object (`local_buffer`) or a pointer to a heap block
(`heap_buffer`; `none` is a nulled moved-from pointer). -/
inductive Cell where
  | local_buffer : Obj → Cell
  | heap_buffer : Option Nat → Cell
deriving DecidableEq

/-- The compile-time storage-kind decision `detail::store_in_heap`:
heap iff the type is not nothrow-move-constructible, or too large, or too
strictly aligned for the inline buffer. -/
def store_in_heap (t : Ty) (sboSize sboAlignment : Nat) : Bool :=
  !t.nothrowMove || decide (sboSize < t.size) || decide (sboAlignment < t.align)

/-- The body of `sbo_storage::build`: construct a new object into an empty
cell, inline or on the heap according to `store_in_heap`.  `mk` is the
constructor event the forwarded arguments select (copy, move, or other). -/
def sbo_build (sboSize sboAlignment : Nat) (t : Ty) (o : Obj) (mk : Nat → Ev) (h : Heap) :
    Except Err (Cell × Heap × List Ev) :=
  if store_in_heap t sboSize sboAlignment then
    match h.alloc o with
    | .error e => .error e
    | .ok (p, h') => .ok (.heap_buffer (some p), h', [.alloc, mk o.tid])
  else
    .ok (.local_buffer o, h, [mk o.tid])

/-- Whether a finished `sbo_build` placed the object in the inline buffer. -/
def built_inline : Except Err (Cell × Heap × List Ev) → Bool
  | .ok (.local_buffer _, _, _) => true
  | _ => false

/-! Address / layout model for the operation-table identity encoding
(`get_vtable` and `polymorphic_value_impl::storage_is_local`).  `W` is the
native pointer width `alignof(void*)`; every `alignas(alignof(void*) * 2)`
static lands at some multiple of `2 * W` (its `slot`). -/

/-- Round `n` up to the next multiple of alignment `a`. -/
def alignUp (n a : Nat) : Nat := (n + a - 1) / a * a

/-- Alignment of `polymorphic_value_vtable` itself: a struct of nine function
pointers, so pointer alignment `W`. -/
def vtable_alignof (W : Nat) : Nat := W

/-- Layout-computed `offsetof(odd_aligned_vtable, vtable)`: the member after
a single leading `void* dummy` of size `W`, aligned for the table. -/
def odd_aligned_vtable_offset (W : Nat) : Nat := alignUp W (vtable_alignof W)

/-- Address of the `alignas(2W)` static table returned by
`get_vtable<Derived, Storage, false>::get` (inline storage). -/
def local_vtable_address (W slot : Nat) : Nat := 2 * W * slot

/-- Address of the table embedded in the `alignas(2W)` static
`odd_aligned_vtable` wrapper returned by `get_vtable<Derived, Storage,
true>::get` (heap storage). -/
def heap_vtable_address (W slot : Nat) : Nat := 2 * W * slot + odd_aligned_vtable_offset W

/-- Address of the operation table for a given storage kind, with `slot`
the `2W`-aligned placement the linker chose for the static. -/
def get_vtable_address (W slot : Nat) (inHeap : Bool) : Nat :=
  if inHeap then heap_vtable_address W slot else local_vtable_address W slot

/-- `polymorphic_value_impl::storage_is_local`: the parity test on the table
address modulo twice the pointer width. -/
def storage_is_local (W addr : Nat) : Bool := addr % (2 * W) == 0

/-! The per-storage-kind entry point implementations.  As in the source, all
of them assume that source and destination hold the same concrete type and
the same storage kind; the mismatched cases are unreachable under the
container invariant and are given inert placeholder results. -/

namespace local_storage

/-- `local_storage::destroy`: run the destructor in place. -/
def destroy (o : Obj) : List Ev := [.destroyed o.tid]

/-- `local_storage::copy`: copy-construct into the destination buffer. -/
def copy (src : Obj) : Obj × List Ev := (src, [.copyCtor src.tid])

/-- `local_storage::move`: move-construct into the destination buffer;
returns (source afterwards, destination, events). -/
def move (src : Obj) : Obj × Obj × List Ev := (src, src, [.moveCtor src.tid])

/-- `local_storage::copy_assign`: copy-assign onto the destination object. -/
def copy_assign (src dst : Obj) : Obj × List Ev :=
  (⟨dst.tid, src.val⟩, [.copyAsgn dst.tid])

/-- `local_storage::move_assign`: move-assign onto the destination object;
returns (source afterwards, destination, events). -/
def move_assign (src dst : Obj) : Obj × Obj × List Ev :=
  (src, ⟨dst.tid, src.val⟩, [.moveAsgn dst.tid])

end local_storage

namespace heap_storage

/-- `heap_storage::destroy`: `delete *ptr`; deleting a nulled (moved-from)
pointer has no effect. -/
def destroy (p : Option Nat) (h : Heap) : Heap × List Ev :=
  match p with
  | none => (h, [])
  | some a =>
    match h.mem a with
    | some o => (h.free a, [.destroyed o.tid, .dealloc])
    | none => (h, [])

/-- `heap_storage::copy`: allocate a new block and copy-construct from the
source's pointee. -/
def copy (p : Option Nat) (h : Heap) : Except Err (Option Nat × Heap × List Ev) :=
  match p with
  | some a =>
    match h.mem a with
    | some o =>
      match h.alloc o with
      | .error e => .error e
      | .ok (q, h') => .ok (some q, h', [.alloc, .copyCtor o.tid])
    | none => .ok (none, h, [])
  | none => .ok (none, h, [])

/-- `heap_storage::copy_raw`: allocate a new block and copy-construct from a
raw external object. -/
def copy_raw (src : Obj) (h : Heap) : Except Err (Option Nat × Heap × List Ev) :=
  match h.alloc src with
  | .error e => .error e
  | .ok (q, h') => .ok (some q, h', [.alloc, .copyCtor src.tid])

/-- `heap_storage::move`: transfer the pointer to the destination and null
the source's pointer; returns (source afterwards, destination, events). -/
def move (p : Option Nat) : Option Nat × Option Nat × List Ev := (none, p, [])

/-- `heap_storage::move_raw`: allocate a new block and move-construct from a
raw external object.  The source declares this function `noexcept`, so an
allocation failure inside it escapes a `noexcept` function and the program
calls `std::terminate` instead of propagating `bad_alloc`. -/
def move_raw (src : Obj) (h : Heap) : Outcome (Option Nat × Heap × List Ev) :=
  match h.alloc src with
  | .error _ => .terminated
  | .ok (q, h') => .ok (some q, h', [.alloc, .moveCtor src.tid])

/-- `heap_storage::copy_assign`: `**dst = **src`. -/
def copy_assign (srcp dstp : Option Nat) (h : Heap) : Heap × List Ev :=
  match srcp, dstp with
  | some sa, some da =>
    match h.mem sa, h.mem da with
    | some so, some dObj => (h.write da ⟨dObj.tid, so.val⟩, [.copyAsgn dObj.tid])
    | _, _ => (h, [])
  | _, _ => (h, [])

/-- `heap_storage::copy_assign_raw`: `**dst = src` from a raw object. -/
def copy_assign_raw (src : Obj) (dstp : Option Nat) (h : Heap) : Heap × List Ev :=
  match dstp with
  | some da =>
    match h.mem da with
    | some dObj => (h.write da ⟨dObj.tid, src.val⟩, [.copyAsgn dObj.tid])
    | none => (h, [])
  | none => (h, [])

/-- `heap_storage::move_assign`: swap the two pointers; returns
(source afterwards, destination, events). -/
def move_assign (srcp dstp : Option Nat) : Option Nat × Option Nat × List Ev :=
  (dstp, srcp, [])

/-- `heap_storage::move_assign_raw`: `**dst = std::move(src)`. -/
def move_assign_raw (src : Obj) (dstp : Option Nat) (h : Heap) : Heap × List Ev :=
  match dstp with
  | some da =>
    match h.mem da with
    | some dObj => (h.write da ⟨dObj.tid, src.val⟩, [.moveAsgn dObj.tid])
    | none => (h, [])
  | none => (h, [])

end heap_storage

/-- The operation table `detail::polymorphic_value_vtable`: nine entry
points working on the storage cell.  The `move`, `move_raw`, `move_assign`
and `move_assign_raw` entries are declared `noexcept` in the source; of
these only `move_raw` contains a potentially failing operation, hence its
`Outcome` result. -/
structure polymorphic_value_vtable where
  destroy : Cell → Heap → Heap × List Ev
  copy : Cell → Heap → Except Err (Cell × Heap × List Ev)
  copy_raw : Obj → Heap → Except Err (Cell × Heap × List Ev)
  move : Cell → Cell × Cell × List Ev
  move_raw : Obj → Heap → Outcome (Cell × Heap × List Ev)
  copy_assign : Cell → Cell → Heap → Cell × Heap × List Ev
  copy_assign_raw : Obj → Cell → Heap → Cell × Heap × List Ev
  move_assign : Cell → Cell → Cell × Cell × List Ev
  move_assign_raw : Obj → Cell → Heap → Cell × Heap × List Ev

/-- The table built by `get_vtable<Derived, Storage, false>::get` (inline
storage): the raw and table-owned entries share the local implementations. -/
def get_vtable_local : polymorphic_value_vtable where
  destroy := fun c h =>
    match c with
    | .local_buffer o => (h, local_storage.destroy o)
    | .heap_buffer _ => (h, [])
  copy := fun c h =>
    match c with
    | .local_buffer o =>
      let (d, ev) := local_storage.copy o
      .ok (.local_buffer d, h, ev)
    | .heap_buffer _ => .ok (c, h, [])
  copy_raw := fun o h =>
    let (d, ev) := local_storage.copy o
    .ok (.local_buffer d, h, ev)
  move := fun c =>
    match c with
    | .local_buffer o =>
      let (s2, d, ev) := local_storage.move o
      (.local_buffer s2, .local_buffer d, ev)
    | .heap_buffer _ => (c, c, [])
  move_raw := fun o h =>
    let (_, d, ev) := local_storage.move o
    .ok (.local_buffer d, h, ev)
  copy_assign := fun s d h =>
    match s, d with
    | .local_buffer so, .local_buffer dObj =>
      let (d', ev) := local_storage.copy_assign so dObj
      (.local_buffer d', h, ev)
    | _, _ => (d, h, [])
  copy_assign_raw := fun o d h =>
    match d with
    | .local_buffer dObj =>
      let (d', ev) := local_storage.copy_assign o dObj
      (.local_buffer d', h, ev)
    | .heap_buffer _ => (d, h, [])
  move_assign := fun s d =>
    match s, d with
    | .local_buffer so, .local_buffer dObj =>
      let (s2, d', ev) := local_storage.move_assign so dObj
      (.local_buffer s2, .local_buffer d', ev)
    | _, _ => (s, d, [])
  move_assign_raw := fun o d h =>
    match d with
    | .local_buffer dObj =>
      let (_, d', ev) := local_storage.move_assign o dObj
      (.local_buffer d', h, ev)
    | .heap_buffer _ => (d, h, [])

/-- The table built by `get_vtable<Derived, Storage, true>::get` (heap
storage). -/
def get_vtable_heap : polymorphic_value_vtable where
  destroy := fun c h =>
    match c with
    | .heap_buffer p => heap_storage.destroy p h
    | .local_buffer _ => (h, [])
  copy := fun c h =>
    match c with
    | .heap_buffer p =>
      match heap_storage.copy p h with
      | .error e => .error e
      | .ok (q, h', ev) => .ok (.heap_buffer q, h', ev)
    | .local_buffer _ => .ok (c, h, [])
  copy_raw := fun o h =>
    match heap_storage.copy_raw o h with
    | .error e => .error e
    | .ok (q, h', ev) => .ok (.heap_buffer q, h', ev)
  move := fun c =>
    match c with
    | .heap_buffer p =>
      let (s2, d, ev) := heap_storage.move p
      (.heap_buffer s2, .heap_buffer d, ev)
    | .local_buffer _ => (c, c, [])
  move_raw := fun o h =>
    match heap_storage.move_raw o h with
    | .terminated => .terminated
    | .thrown e => .thrown e
    | .ok (q, h', ev) => .ok (.heap_buffer q, h', ev)
  copy_assign := fun s d h =>
    match s, d with
    | .heap_buffer sp, .heap_buffer dp =>
      let (h', ev) := heap_storage.copy_assign sp dp h
      (d, h', ev)
    | _, _ => (d, h, [])
  copy_assign_raw := fun o d h =>
    match d with
    | .heap_buffer dp =>
      let (h', ev) := heap_storage.copy_assign_raw o dp h
      (d, h', ev)
    | .local_buffer _ => (d, h, [])
  move_assign := fun s d =>
    match s, d with
    | .heap_buffer sp, .heap_buffer dp =>
      let (s2, d2, ev) := heap_storage.move_assign sp dp
      (.heap_buffer s2, .heap_buffer d2, ev)
    | _, _ => (s, d, [])
  move_assign_raw := fun o d h =>
    match d with
    | .heap_buffer dp =>
      let (h', ev) := heap_storage.move_assign_raw o dp h
      (d, h', ev)
    | .local_buffer _ => (d, h, [])

/-- Dispatch on the storage kind encoded in the table identity: the behavior
selected by `get_vtable<Derived, Storage>` for each kind. -/
def get_vtable_impl (inHeap : Bool) : polymorphic_value_vtable :=
  if inHeap then get_vtable_heap else get_vtable_local

/-- The identity of an operation table: one table exists per (concrete type,
storage kind) pair, so `m_vtable` pointer equality is equality of this
pair. -/
structure VT where
  tid : Nat
  inHeap : Bool
deriving DecidableEq

/-- The container `polymorphic_value_impl`: an operation-table reference
`m_vtable` plus the storage cell `m_storage`. -/
structure Container where
  vt : VT
  cell : Cell
deriving DecidableEq

/-- A template instantiation context: the type environment, the instantiated
`SboSize` / `SboAlignment`, and whether RTTI is compiled in
(`POLYMORPHIC_VALUE_RTTI_SUPPORTED`). -/
structure Model where
  env : Nat → Ty
  sboSize : Nat
  sboAlignment : Nat
  rtti : Bool

/-- The storage-kind decision for the type with id `tid` under this
instantiation. -/
def Model.storeInHeap (M : Model) (tid : Nat) : Bool :=
  store_in_heap (M.env tid) M.sboSize M.sboAlignment

/-- `detail::get_vtable<Derived, storage_t>::get()`: the table identity for
a concrete type, with the kind chosen by `store_in_heap`. -/
def Model.getVT (M : Model) (tid : Nat) : VT :=
  ⟨tid, M.storeInHeap tid⟩

/-- Constructor from a concrete value, `polymorphic_value_impl(Derived&&)`:
the RTTI slicing check (if compiled in), then table selection, then
`m_storage.build` forwarding the argument (a copy- or move-construction,
chosen by the argument's value category `isMove`). -/
def pv_ctor_value (M : Model) (isMove : Bool) (r : RawVal) (h : Heap) :
    Outcome (Container × Heap × List Ev) :=
  if M.rtti && !(r.dyntid == r.tid) then .thrown (.badPoly "Value would slice")
  else
    let vt := M.getVT r.tid
    match sbo_build M.sboSize M.sboAlignment (M.env r.tid) ⟨r.tid, r.val⟩
        (if isMove then Ev.moveCtor else Ev.copyCtor) h with
    | .error e => .thrown e
    | .ok (cell, h', ev) => .ok (⟨vt, cell⟩, h', ev)

/-- In-place constructor `polymorphic_value_impl(in_place_type_t<Derived>,
Args&&...)`: no slicing check; `o` is the object the forwarded arguments
construct. -/
def pv_ctor_in_place (M : Model) (o : Obj) (h : Heap) :
    Outcome (Container × Heap × List Ev) :=
  let vt := M.getVT o.tid
  match sbo_build M.sboSize M.sboAlignment (M.env o.tid) o Ev.construct h with
  | .error e => .thrown e
  | .ok (cell, h', ev) => .ok (⟨vt, cell⟩, h', ev)

/-- Copy constructor from another container: adopt the source's table and
dispatch its `copy` entry. -/
def pv_copy_ctor (src : Container) (h : Heap) : Outcome (Container × Heap × List Ev) :=
  match (get_vtable_impl src.vt.inHeap).copy src.cell h with
  | .error e => .thrown e
  | .ok (cell, h', ev) => .ok (⟨src.vt, cell⟩, h', ev)

/-- Move constructor from another container (`noexcept`): adopt the source's
table and dispatch its `move` entry.  Returns (new container, the source's
cell afterwards, events); the heap is untouched on every path. -/
def pv_move_ctor (src : Container) : Container × Cell × List Ev :=
  let (srcAfter, d, ev) := (get_vtable_impl src.vt.inHeap).move src.cell
  (⟨src.vt, d⟩, srcAfter, ev)

/-- Copy assignment from another container: the self-assignment identity
check (`selfEq` models `&src == this`), then in-place `copy_assign` when the
tables are equal, else destroy / switch table / `copy`. -/
def pv_copy_assign (self src : Container) (selfEq : Bool) (h : Heap) :
    Outcome (Container × Heap × List Ev) :=
  if selfEq then .ok (self, h, [])
  else if self.vt = src.vt then
    let (cell', h', ev) := (get_vtable_impl self.vt.inHeap).copy_assign src.cell self.cell h
    .ok (⟨self.vt, cell'⟩, h', ev)
  else
    let (h1, ev1) := (get_vtable_impl self.vt.inHeap).destroy self.cell h
    match (get_vtable_impl src.vt.inHeap).copy src.cell h1 with
    | .error e => .thrown e
    | .ok (cell', h2, ev2) => .ok (⟨src.vt, cell'⟩, h2, ev1 ++ ev2)

/-- Move assignment from another container (`noexcept`): identity check,
then in-place `move_assign` when the tables are equal, else destroy / switch
table / `move`.  Returns (destination afterwards, the source's cell
afterwards, heap, events). -/
def pv_move_assign (self src : Container) (selfEq : Bool) (h : Heap) :
    Container × Cell × Heap × List Ev :=
  if selfEq then (self, src.cell, h, [])
  else if self.vt = src.vt then
    let (srcAfter, cell', ev) := (get_vtable_impl self.vt.inHeap).move_assign src.cell self.cell
    (⟨self.vt, cell'⟩, srcAfter, h, ev)
  else
    let (h1, ev1) := (get_vtable_impl self.vt.inHeap).destroy self.cell h
    let (srcAfter, cell', ev2) := (get_vtable_impl src.vt.inHeap).move src.cell
    (⟨src.vt, cell'⟩, srcAfter, h1, ev1 ++ ev2)

/-- Copy assignment from a raw concrete value, `operator=(Derived const&)`:
slicing check, fetch the table for the declared type, then in-place
`copy_assign_raw` when it equals the current table, else destroy / switch /
`copy_raw`. -/
def pv_copy_assign_raw (M : Model) (self : Container) (r : RawVal) (h : Heap) :
    Outcome (Container × Heap × List Ev) :=
  if M.rtti && !(r.dyntid == r.tid) then .thrown (.badPoly "Value would slice")
  else
    let newVT := M.getVT r.tid
    let o : Obj := ⟨r.tid, r.val⟩
    if self.vt = newVT then
      let (cell', h', ev) := (get_vtable_impl self.vt.inHeap).copy_assign_raw o self.cell h
      .ok (⟨self.vt, cell'⟩, h', ev)
    else
      let (h1, ev1) := (get_vtable_impl self.vt.inHeap).destroy self.cell h
      match (get_vtable_impl newVT.inHeap).copy_raw o h1 with
      | .error e => .thrown e
      | .ok (cell', h2, ev2) => .ok (⟨newVT, cell'⟩, h2, ev1 ++ ev2)

/-- Move assignment from a raw concrete value, `operator=(Derived&&)`:
slicing check, then in-place `move_assign_raw` when the tables agree, else
destroy / switch / `move_raw` (the latter can only terminate, never throw,
because the `move_raw` entry is `noexcept`). -/
def pv_move_assign_raw (M : Model) (self : Container) (r : RawVal) (h : Heap) :
    Outcome (Container × Heap × List Ev) :=
  if M.rtti && !(r.dyntid == r.tid) then .thrown (.badPoly "Value would slice")
  else
    let newVT := M.getVT r.tid
    let o : Obj := ⟨r.tid, r.val⟩
    if self.vt = newVT then
      let (cell', h', ev) := (get_vtable_impl self.vt.inHeap).move_assign_raw o self.cell h
      .ok (⟨self.vt, cell'⟩, h', ev)
    else
      let (h1, ev1) := (get_vtable_impl self.vt.inHeap).destroy self.cell h
      match (get_vtable_impl newVT.inHeap).move_raw o h1 with
      | .terminated => .terminated
      | .thrown e => .thrown e
      | .ok (cell', h2, ev2) => .ok (⟨newVT, cell'⟩, h2, ev1 ++ ev2)

/-- `emplace<Derived>(Args&&...)`: destroy the current object
unconditionally, switch the table, and build the newly constructed object
`o` into the empty cell. -/
def pv_emplace (M : Model) (self : Container) (o : Obj) (h : Heap) :
    Outcome (Container × Heap × List Ev) :=
  let (h1, ev1) := (get_vtable_impl self.vt.inHeap).destroy self.cell h
  let vt := M.getVT o.tid
  match sbo_build M.sboSize M.sboAlignment (M.env o.tid) o Ev.construct h1 with
  | .error e => .thrown e
  | .ok (cell, h2, ev2) => .ok (⟨vt, cell⟩, h2, ev1 ++ ev2)

/-- The destructor: dispatch the current table's `destroy` entry. -/
def pv_destroy (self : Container) (h : Heap) : Heap × List Ev :=
  (get_vtable_impl self.vt.inHeap).destroy self.cell h

/-- The five `static_assert(AllowAllocations || !store_in_heap<...>)` sites:
value constructor, in-place constructor, copy assignment from a value, move
assignment from a value, and `emplace`. -/
inductive OpPath where
  | valueCtor : OpPath
  | inPlaceCtor : OpPath
  | copyAssignRaw : OpPath
  | moveAssignRaw : OpPath
  | emplacePath : OpPath
deriving DecidableEq

/-- The build-time policy check `AllowAllocations ||
!detail::store_in_heap<Derived, SboSize, SboAlignment>` as it appears at
each of the five sites; compilation of that path succeeds iff it is true. -/
def path_static_assert (p : OpPath) (allowAllocations : Bool) (t : Ty)
    (sboSize sboAlignment : Nat) : Bool :=
  match p with
  | .valueCtor => allowAllocations || !store_in_heap t sboSize sboAlignment
  | .inPlaceCtor => allowAllocations || !store_in_heap t sboSize sboAlignment
  | .copyAssignRaw => allowAllocations || !store_in_heap t sboSize sboAlignment
  | .moveAssignRaw => allowAllocations || !store_in_heap t sboSize sboAlignment
  | .emplacePath => allowAllocations || !store_in_heap t sboSize sboAlignment

/-! The container invariant: the table identity matches the storage-kind
decision and the cell's live representation. -/

/-- The cell's current representation matches a table identity under a given
heap: an inline table references a live in-buffer object of the right type;
a heap table references a non-null pointer to a live heap object of the
right type. -/
def cell_matches (h : Heap) (tid : Nat) (inHeap : Bool) : Cell → Prop
  | .local_buffer o => inHeap = false ∧ o.tid = tid
  | .heap_buffer none => False
  | .heap_buffer (some p) => inHeap = true ∧ ∃ o, h.mem p = some o ∧ o.tid = tid

/-- Well-formedness of a live (not moved-from) container: the referenced
table is the one `get_vtable` produces for its type, and the cell holds
exactly one live object of that type in the storage kind the table
encodes. -/
def WF (M : Model) (c : Container) (h : Heap) : Prop :=
  c.vt.inHeap = M.storeInHeap c.vt.tid ∧ cell_matches h c.vt.tid c.vt.inHeap c.cell

/-- Two containers never share ownership of a heap block (exclusive
ownership of heap storage; distinct live containers have distinct
blocks). -/
def cells_disjoint (c d : Container) : Prop :=
  ∀ p q, c.cell = Cell.heap_buffer (some p) → d.cell = Cell.heap_buffer (some q) → p ≠ q

/-! Concrete fixtures mirroring the test suite's `DerivedSmallSpecialFunctions`
(1 byte, inline) and `DerivedBigSpecialFunctions` (4 pointer widths, heap)
under the default `polymorphic_value<Base>` layout on a 64-bit target. -/

/-- A small, nothrow-movable concrete type (stored inline under `M0`). -/
def tyS : Ty := ⟨1, 1, true⟩

/-- A large concrete type (stored on the heap under `M0`). -/
def tyB : Ty := ⟨32, 8, true⟩

/-- Fixture type environment: type id 0 is small, every other id is big. -/
def env0 : Nat → Ty := fun tid => if tid = 0 then tyS else tyB

/-- Fixture instantiation: `SboSize` 24, `SboAlignment` 8, RTTI enabled. -/
def M0 : Model := ⟨env0, 24, 8, true⟩

/-- An empty fixture heap with allocation fuel left. -/
def heap0 : Heap := ⟨fun _ => none, 0, 4⟩

/-- A fixture heap holding one big object at address 0. -/
def heap1 : Heap := ⟨fun a => if a = 0 then some ⟨1, 35⟩ else none, 1, 4⟩

/-- A fixture heap holding big objects at addresses 0 and 1. -/
def heap2 : Heap :=
  ⟨fun a => if a = 0 then some ⟨1, 35⟩ else if a = 1 then some ⟨1, 7⟩ else none, 2, 4⟩

/-- An exhausted heap: the next allocation throws `bad_alloc`. -/
def heapNoFuel : Heap := ⟨fun _ => none, 0, 0⟩

/-- A container holding the small type inline. -/
def cS : Container := ⟨⟨0, false⟩, .local_buffer ⟨0, 4⟩⟩

/-- A second small-type container with a different payload. -/
def cS8 : Container := ⟨⟨0, false⟩, .local_buffer ⟨0, 8⟩⟩

/-- A container owning the big object at heap address 0. -/
def cB : Container := ⟨⟨1, true⟩, .heap_buffer (some 0)⟩

/-- A container owning the big object at heap address 1. -/
def cB1 : Container := ⟨⟨1, true⟩, .heap_buffer (some 1)⟩

/-! Helper lemmas about allocation, destruction and the table entries,
shared by the claim theorems. -/

/-- A successful allocation places the object at the returned address. -/
theorem alloc_mem {h : Heap} {o : Obj} {p : Nat} {h' : Heap}
    (ha : h.alloc o = .ok (p, h')) : h'.mem p = some o := by
  unfold Heap.alloc at ha
  cases hf : h.fuel with
  | zero => rw [hf] at ha; cases ha
  | succ f =>
    rw [hf] at ha
    simp only [Except.ok.injEq, Prod.mk.injEq] at ha
    obtain ⟨hp, hh⟩ := ha
    subst hp
    rw [← hh]
    simp

/-- Destroying one container's storage leaves every other live heap block in
place (the freed address, if any, is the destroyed cell's own block). -/
theorem destroy_mem_preserve {inHeap : Bool} {c : Cell} {h h1 : Heap} {ev : List Ev}
    (hd : (get_vtable_impl inHeap).destroy c h = (h1, ev)) {q : Nat}
    (hq : ∀ p, c = Cell.heap_buffer (some p) → q ≠ p) {o : Obj} (hm : h.mem q = some o) :
    h1.mem q = some o := by
  cases inHeap with
  | false =>
    cases c with
    | local_buffer ob =>
      simp only [get_vtable_impl, if_neg, get_vtable_local, Bool.false_eq_true,
        ite_false] at hd
      cases hd
      exact hm
    | heap_buffer p =>
      simp only [get_vtable_impl, get_vtable_local, Bool.false_eq_true, ite_false] at hd
      cases hd
      exact hm
  | true =>
    cases c with
    | local_buffer ob =>
      simp only [get_vtable_impl, get_vtable_heap, ite_true] at hd
      cases hd
      exact hm
    | heap_buffer p =>
      simp only [get_vtable_impl, get_vtable_heap, ite_true] at hd
      cases p with
      | none => simp only [heap_storage.destroy] at hd; cases hd; exact hm
      | some a =>
        have hqa : q ≠ a := hq a rfl
        simp only [heap_storage.destroy] at hd
        cases hma : h.mem a with
        | none => rw [hma] at hd; cases hd; exact hm
        | some ob =>
          rw [hma] at hd
          cases hd
          simp [Heap.free, hqa, hm]

/-- A finished `sbo_build` yields a cell that matches the storage-kind
decision for the built type. -/
theorem wf_build (M : Model) {tid : Nat} {o : Obj} {mk : Nat → Ev} {h : Heap}
    {cell : Cell} {h' : Heap} {ev : List Ev}
    (hb : sbo_build M.sboSize M.sboAlignment (M.env tid) o mk h
        = .ok (cell, h', ev)) (hot : o.tid = tid) :
    cell_matches h' tid (M.storeInHeap tid) cell := by
  unfold sbo_build at hb
  by_cases hs : store_in_heap (M.env tid) M.sboSize M.sboAlignment = true
  · rw [if_pos hs] at hb
    cases halloc : Heap.alloc h o with
    | error e => rw [halloc] at hb; cases hb
    | ok v =>
      obtain ⟨p, h2⟩ := v
      rw [halloc] at hb
      simp only [Except.ok.injEq, Prod.mk.injEq] at hb
      obtain ⟨hc, hh, hev⟩ := hb
      subst hc hh
      have hmem := alloc_mem halloc
      exact ⟨hs, o, hmem, hot⟩
  · rw [if_neg hs] at hb
    simp only [Except.ok.injEq, Prod.mk.injEq] at hb
    obtain ⟨hc, hh, hev⟩ := hb
    subst hc hh
    rw [Bool.not_eq_true] at hs
    exact ⟨hs, hot⟩

/-- The `copy` entry builds a matching cell of the same kind. -/
theorem wf_copy_entry {h : Heap} {tid : Nat} {k : Bool} {c c' : Cell}
    {h' : Heap} {ev : List Ev} (hcm : cell_matches h tid k c)
    (hc : (get_vtable_impl k).copy c h = .ok (c', h', ev)) :
    cell_matches h' tid k c' := by
  cases k with
  | false =>
    cases c with
    | local_buffer o =>
      simp only [get_vtable_impl, Bool.false_eq_true, ite_false, get_vtable_local,
        local_storage.copy, Except.ok.injEq, Prod.mk.injEq] at hc
      obtain ⟨hc1, hh, hev⟩ := hc
      subst hc1 hh
      exact hcm
    | heap_buffer p =>
      cases p with
      | none => exact hcm.elim
      | some a => exact Bool.noConfusion hcm.1
  | true =>
    cases c with
    | local_buffer o =>
      exact Bool.noConfusion hcm.1
    | heap_buffer p =>
      cases p with
      | none => exact hcm.elim
      | some a =>
        obtain ⟨-, o, hmo, hot⟩ := hcm
        cases halloc : Heap.alloc h o with
        | error e =>
          simp only [get_vtable_impl, ite_true, get_vtable_heap, heap_storage.copy,
            hmo, halloc] at hc
          cases hc
        | ok v =>
          obtain ⟨q, h2⟩ := v
          simp only [get_vtable_impl, ite_true, get_vtable_heap, heap_storage.copy,
            hmo, halloc, Except.ok.injEq, Prod.mk.injEq] at hc
          obtain ⟨hc1, hh, hev⟩ := hc
          subst hc1 hh
          exact ⟨rfl, o, alloc_mem halloc, hot⟩

/-- The `copy_raw` entry builds a matching cell from a raw object of the
right type. -/
theorem wf_copy_raw_entry {h : Heap} {tid : Nat} {k : Bool} {o : Obj} {c' : Cell}
    {h' : Heap} {ev : List Ev}
    (hc : (get_vtable_impl k).copy_raw o h = .ok (c', h', ev)) (hot : o.tid = tid) :
    cell_matches h' tid k c' := by
  cases k with
  | false =>
    simp only [get_vtable_impl, Bool.false_eq_true, ite_false, get_vtable_local,
      local_storage.copy, Except.ok.injEq, Prod.mk.injEq] at hc
    obtain ⟨hc1, hh, hev⟩ := hc
    subst hc1 hh
    exact ⟨rfl, hot⟩
  | true =>
    cases halloc : Heap.alloc h o with
    | error e =>
      simp only [get_vtable_impl, ite_true, get_vtable_heap, heap_storage.copy_raw,
        halloc] at hc
      cases hc
    | ok v =>
      obtain ⟨q, h2⟩ := v
      simp only [get_vtable_impl, ite_true, get_vtable_heap, heap_storage.copy_raw,
        halloc, Except.ok.injEq, Prod.mk.injEq] at hc
      obtain ⟨hc1, hh, hev⟩ := hc
      subst hc1 hh
      exact ⟨rfl, o, alloc_mem halloc, hot⟩

/-- The `move_raw` entry, when it completes, builds a matching cell from a
raw object of the right type. -/
theorem wf_move_raw_entry {h : Heap} {tid : Nat} {k : Bool} {o : Obj} {c' : Cell}
    {h' : Heap} {ev : List Ev}
    (hc : (get_vtable_impl k).move_raw o h = .ok (c', h', ev)) (hot : o.tid = tid) :
    cell_matches h' tid k c' := by
  cases k with
  | false =>
    simp only [get_vtable_impl, Bool.false_eq_true, ite_false, get_vtable_local,
      local_storage.move, Outcome.ok.injEq, Prod.mk.injEq] at hc
    obtain ⟨hc1, hh, hev⟩ := hc
    subst hc1 hh
    exact ⟨rfl, hot⟩
  | true =>
    cases halloc : Heap.alloc h o with
    | error e =>
      simp only [get_vtable_impl, ite_true, get_vtable_heap, heap_storage.move_raw,
        halloc] at hc
      cases hc
    | ok v =>
      obtain ⟨q, h2⟩ := v
      simp only [get_vtable_impl, ite_true, get_vtable_heap, heap_storage.move_raw,
        halloc, Outcome.ok.injEq, Prod.mk.injEq] at hc
      obtain ⟨hc1, hh, hev⟩ := hc
      subst hc1 hh
      exact ⟨rfl, o, alloc_mem halloc, hot⟩

/-- The `move` entry yields a destination cell matching the source's table;
the heap is untouched. -/
theorem wf_move_entry {h : Heap} {tid : Nat} {k : Bool} {c : Cell}
    (hcm : cell_matches h tid k c) :
    cell_matches h tid k ((get_vtable_impl k).move c).2.1 := by
  cases k with
  | false =>
    cases c with
    | local_buffer o =>
      simpa only [get_vtable_impl, Bool.false_eq_true, ite_false, get_vtable_local,
        local_storage.move] using hcm
    | heap_buffer p =>
      cases p with
      | none => exact hcm.elim
      | some a => exact Bool.noConfusion hcm.1
  | true =>
    cases c with
    | local_buffer o => exact Bool.noConfusion hcm.1
    | heap_buffer p =>
      cases p with
      | none => exact hcm.elim
      | some a =>
        simpa only [get_vtable_impl, ite_true, get_vtable_heap, heap_storage.move]
          using hcm

/-- The `copy_assign` entry leaves a matching destination cell. -/
theorem wf_copy_assign_entry {h : Heap} {tid : Nat} {k : Bool} {s d : Cell}
    (hs : cell_matches h tid k s) (hd : cell_matches h tid k d) :
    cell_matches ((get_vtable_impl k).copy_assign s d h).2.1 tid k
      ((get_vtable_impl k).copy_assign s d h).1 := by
  cases k with
  | false =>
    cases s with
    | heap_buffer p =>
      cases p with
      | none => exact hs.elim
      | some a => exact Bool.noConfusion hs.1
    | local_buffer so =>
      cases d with
      | heap_buffer p =>
        cases p with
        | none => exact hd.elim
        | some a => exact Bool.noConfusion hd.1
      | local_buffer dObj =>
        simp only [get_vtable_impl, Bool.false_eq_true, ite_false, get_vtable_local,
          local_storage.copy_assign]
        exact ⟨rfl, hd.2⟩
  | true =>
    cases s with
    | local_buffer so => exact Bool.noConfusion hs.1
    | heap_buffer sp =>
      cases sp with
      | none => exact hs.elim
      | some sa =>
        cases d with
        | local_buffer dObj => exact Bool.noConfusion hd.1
        | heap_buffer dp =>
          cases dp with
          | none => exact hd.elim
          | some da =>
            obtain ⟨-, so, hmsa, hso⟩ := hs
            obtain ⟨-, dObj, hmda, hdo⟩ := hd
            simp only [get_vtable_impl, ite_true, get_vtable_heap,
              heap_storage.copy_assign, hmsa, hmda]
            exact ⟨rfl, ⟨dObj.tid, so.val⟩, by simp [Heap.write], hdo⟩

/-- The `copy_assign_raw` entry leaves a matching destination cell. -/
theorem wf_copy_assign_raw_entry {h : Heap} {tid : Nat} {k : Bool} (o : Obj) {d : Cell}
    (hd : cell_matches h tid k d) :
    cell_matches ((get_vtable_impl k).copy_assign_raw o d h).2.1 tid k
      ((get_vtable_impl k).copy_assign_raw o d h).1 := by
  cases k with
  | false =>
    cases d with
    | heap_buffer p =>
      cases p with
      | none => exact hd.elim
      | some a => exact Bool.noConfusion hd.1
    | local_buffer dObj =>
      simp only [get_vtable_impl, Bool.false_eq_true, ite_false, get_vtable_local,
        local_storage.copy_assign]
      exact ⟨rfl, hd.2⟩
  | true =>
    cases d with
    | local_buffer dObj => exact Bool.noConfusion hd.1
    | heap_buffer dp =>
      cases dp with
      | none => exact hd.elim
      | some da =>
        obtain ⟨-, dObj, hmda, hdo⟩ := hd
        simp only [get_vtable_impl, ite_true, get_vtable_heap,
          heap_storage.copy_assign_raw, hmda]
        exact ⟨rfl, ⟨dObj.tid, o.val⟩, by simp [Heap.write], hdo⟩

/-- The `move_assign` entry leaves a matching destination cell; the heap is
untouched. -/
theorem wf_move_assign_entry {h : Heap} {tid : Nat} {k : Bool} {s d : Cell}
    (hs : cell_matches h tid k s) (hd : cell_matches h tid k d) :
    cell_matches h tid k ((get_vtable_impl k).move_assign s d).2.1 := by
  cases k with
  | false =>
    cases s with
    | heap_buffer p =>
      cases p with
      | none => exact hs.elim
      | some a => exact Bool.noConfusion hs.1
    | local_buffer so =>
      cases d with
      | heap_buffer p =>
        cases p with
        | none => exact hd.elim
        | some a => exact Bool.noConfusion hd.1
      | local_buffer dObj =>
        simp only [get_vtable_impl, Bool.false_eq_true, ite_false, get_vtable_local,
          local_storage.move_assign]
        exact ⟨rfl, hd.2⟩
  | true =>
    cases s with
    | local_buffer so => exact Bool.noConfusion hs.1
    | heap_buffer sp =>
      cases sp with
      | none => exact hs.elim
      | some sa =>
        cases d with
        | local_buffer dObj => exact Bool.noConfusion hd.1
        | heap_buffer dp =>
          cases dp with
          | none => exact hd.elim
          | some da =>
            simpa only [get_vtable_impl, ite_true, get_vtable_heap,
              heap_storage.move_assign] using hs

/-- The `move_assign_raw` entry leaves a matching destination cell. -/
theorem wf_move_assign_raw_entry {h : Heap} {tid : Nat} {k : Bool} (o : Obj) {d : Cell}
    (hd : cell_matches h tid k d) :
    cell_matches ((get_vtable_impl k).move_assign_raw o d h).2.1 tid k
      ((get_vtable_impl k).move_assign_raw o d h).1 := by
  cases k with
  | false =>
    cases d with
    | heap_buffer p =>
      cases p with
      | none => exact hd.elim
      | some a => exact Bool.noConfusion hd.1
    | local_buffer dObj =>
      simp only [get_vtable_impl, Bool.false_eq_true, ite_false, get_vtable_local,
        local_storage.move_assign]
      exact ⟨rfl, hd.2⟩
  | true =>
    cases d with
    | local_buffer dObj => exact Bool.noConfusion hd.1
    | heap_buffer dp =>
      cases dp with
      | none => exact hd.elim
      | some da =>
        obtain ⟨-, dObj, hmda, hdo⟩ := hd
        simp only [get_vtable_impl, ite_true, get_vtable_heap,
          heap_storage.move_assign_raw, hmda]
        exact ⟨rfl, ⟨dObj.tid, o.val⟩, by simp [Heap.write], hdo⟩

/-- C1: for every concrete type and storage kind, the table address parity
encoding holds: the offset of the table embedded in the heap wrapper is
exactly one pointer width (the build-time `static_assert`), every inline
table address is `0 mod 2W`, every heap table address is `W mod 2W`, and
`storage_is_local` recovers the storage kind from the address alone. -/
theorem C1_table_parity_encoding (W slot : Nat) (hW : 0 < W) :
    odd_aligned_vtable_offset W = W ∧
    local_vtable_address W slot % (2 * W) = 0 ∧
    heap_vtable_address W slot % (2 * W) = W ∧
    (∀ inHeap : Bool, storage_is_local W (get_vtable_address W slot inHeap) = !inHeap) := by
  have hdiv : (W + W - 1) / W = 1 := by
    apply Nat.div_eq_of_lt_le <;> omega
  have hoff : odd_aligned_vtable_offset W = W := by
    unfold odd_aligned_vtable_offset alignUp vtable_alignof
    rw [hdiv, one_mul]
  have hloc : local_vtable_address W slot % (2 * W) = 0 := Nat.mul_mod_right _ _
  have hheap : heap_vtable_address W slot % (2 * W) = W := by
    unfold heap_vtable_address
    rw [hoff, Nat.mul_add_mod]
    exact Nat.mod_eq_of_lt (by omega)
  refine ⟨hoff, hloc, hheap, ?_⟩
  intro k
  cases k with
  | false => simp [get_vtable_address, storage_is_local, local_vtable_address]
  | true =>
    simp only [get_vtable_address, ite_true, storage_is_local, hheap, Bool.not_true]
    cases W with
    | zero => omega
    | succ n => rfl

/-- C1 witness: with an 8-byte pointer width and an arbitrary slot, the
parity test recovers both storage kinds. -/
theorem C1_table_parity_encoding_witness :
    0 < 8 ∧ storage_is_local 8 (get_vtable_address 8 3 false) = true ∧
      storage_is_local 8 (get_vtable_address 8 3 true) = false :=
  ⟨by decide, (C1_table_parity_encoding 8 3 (by decide)).2.2.2 false,
    (C1_table_parity_encoding 8 3 (by decide)).2.2.2 true⟩

/-- C2: a concrete type is placed inline iff its size and alignment fit the
configured bounds and it is nothrow-move-constructible; the branch
`sbo_storage::build` takes is exactly this decision, independent of the
instance being built and of the heap state. -/
theorem C2_storage_kind_decision (t : Ty) (s a : Nat) :
    (store_in_heap t s a = false ↔ t.size ≤ s ∧ t.align ≤ a ∧ t.nothrowMove = true) ∧
    (∀ o mk h, built_inline (sbo_build s a t o mk h) = !store_in_heap t s a) := by
  constructor
  · cases hm : t.nothrowMove with
    | false => simp [store_in_heap, hm]
    | true => simp [store_in_heap, hm]
  · intro o mk h
    by_cases hs : store_in_heap t s a = true
    · simp only [sbo_build, hs, ite_true, Bool.not_true]
      cases halloc : Heap.alloc h o with
      | error e => simp [built_inline]
      | ok v =>
        obtain ⟨p, h2⟩ := v
        simp [built_inline]
    · rw [Bool.not_eq_true] at hs
      simp [sbo_build, hs, built_inline]

/-- Destroying one container's cell does not disturb the matching of any
other container's cell backed by a disjoint heap block. -/
theorem cell_matches_destroy_other (k : Bool) {cSelf : Cell} {h : Heap} {tid' : Nat}
    {k' : Bool} {cOther : Cell}
    (hdisj : ∀ p q, cSelf = Cell.heap_buffer (some p) →
      cOther = Cell.heap_buffer (some q) → p ≠ q)
    (hcm : cell_matches h tid' k' cOther) :
    cell_matches ((get_vtable_impl k).destroy cSelf h).1 tid' k' cOther := by
  cases cOther with
  | local_buffer o => exact hcm
  | heap_buffer p =>
    cases p with
    | none => exact hcm.elim
    | some q =>
      obtain ⟨hk, o, hm, ht⟩ := hcm
      refine ⟨hk, o, ?_, ht⟩
      exact destroy_mem_preserve Prod.mk.eta.symm
        (fun p hp => Ne.symm (hdisj p q hp rfl)) hm

/-- The value constructor establishes the container invariant. -/
theorem wf_pv_ctor_value {M : Model} {isMove : Bool} {r : RawVal} {h : Heap}
    {c : Container} {h' : Heap} {ev : List Ev}
    (hop : pv_ctor_value M isMove r h = .ok (c, h', ev)) : WF M c h' := by
  unfold pv_ctor_value at hop
  by_cases hr : (M.rtti && !(r.dyntid == r.tid)) = true
  · rw [if_pos hr] at hop; cases hop
  · rw [if_neg hr] at hop
    cases hb : sbo_build M.sboSize M.sboAlignment (M.env r.tid) ⟨r.tid, r.val⟩
        (if isMove then Ev.moveCtor else Ev.copyCtor) h with
    | error e => rw [hb] at hop; cases hop
    | ok v =>
      obtain ⟨cell, h2, ev2⟩ := v
      rw [hb] at hop
      simp only [Outcome.ok.injEq, Prod.mk.injEq] at hop
      obtain ⟨hc, hh, hev⟩ := hop
      subst hc hh
      have hcm := wf_build M hb rfl
      exact ⟨rfl, hcm⟩

/-- The in-place constructor establishes the container invariant. -/
theorem wf_pv_ctor_in_place {M : Model} {o : Obj} {h : Heap}
    {c : Container} {h' : Heap} {ev : List Ev}
    (hop : pv_ctor_in_place M o h = .ok (c, h', ev)) : WF M c h' := by
  unfold pv_ctor_in_place at hop
  cases hb : sbo_build M.sboSize M.sboAlignment (M.env o.tid) o Ev.construct h with
  | error e => rw [hb] at hop; cases hop
  | ok v =>
    obtain ⟨cell, h2, ev2⟩ := v
    rw [hb] at hop
    simp only [Outcome.ok.injEq, Prod.mk.injEq] at hop
    obtain ⟨hc, hh, hev⟩ := hop
    subst hc hh
    have hcm := wf_build M hb rfl
    exact ⟨rfl, hcm⟩

/-- The container copy constructor establishes the invariant from a
well-formed source. -/
theorem wf_pv_copy_ctor {M : Model} {src : Container} {h : Heap}
    {c : Container} {h' : Heap} {ev : List Ev} (hwf : WF M src h)
    (hop : pv_copy_ctor src h = .ok (c, h', ev)) : WF M c h' := by
  obtain ⟨hvt, hcm⟩ := hwf
  unfold pv_copy_ctor at hop
  cases hb : (get_vtable_impl src.vt.inHeap).copy src.cell h with
  | error e => rw [hb] at hop; cases hop
  | ok v =>
    obtain ⟨cell, h2, ev2⟩ := v
    rw [hb] at hop
    simp only [Outcome.ok.injEq, Prod.mk.injEq] at hop
    obtain ⟨hc, hh, hev⟩ := hop
    subst hc hh
    exact ⟨hvt, wf_copy_entry hcm hb⟩

/-- The container move constructor establishes the invariant from a
well-formed source (the heap is untouched). -/
theorem wf_pv_move_ctor {M : Model} {src : Container} {h : Heap} (hwf : WF M src h) :
    WF M (pv_move_ctor src).1 h := by
  obtain ⟨hvt, hcm⟩ := hwf
  exact ⟨hvt, wf_move_entry hcm⟩

/-- Container copy assignment preserves the invariant (both operands
well-formed, heap blocks disjoint), on every path. -/
theorem wf_pv_copy_assign {M : Model} {self src : Container} {selfEq : Bool} {h : Heap}
    {c : Container} {h' : Heap} {ev : List Ev}
    (hwfd : WF M self h) (hwfs : WF M src h) (hdisj : cells_disjoint self src)
    (hop : pv_copy_assign self src selfEq h = .ok (c, h', ev)) : WF M c h' := by
  obtain ⟨hvtd, hcmd⟩ := hwfd
  obtain ⟨hvts, hcms⟩ := hwfs
  unfold pv_copy_assign at hop
  cases selfEq with
  | true =>
    rw [if_pos (by decide : true = true)] at hop
    simp only [Outcome.ok.injEq, Prod.mk.injEq] at hop
    obtain ⟨hc, hh, hev⟩ := hop
    subst hc hh
    exact ⟨hvtd, hcmd⟩
  | false =>
    rw [if_neg (by decide : ¬(false = true))] at hop
    by_cases hvt : self.vt = src.vt
    · rw [if_pos hvt] at hop
      rcases hE : (get_vtable_impl self.vt.inHeap).copy_assign src.cell self.cell h
        with ⟨cell2, h2, ev2⟩
      rw [hE] at hop
      simp only [Outcome.ok.injEq, Prod.mk.injEq] at hop
      obtain ⟨hc, hh, hev⟩ := hop
      subst hc hh
      refine ⟨hvtd, ?_⟩
      have hcms' : cell_matches h self.vt.tid self.vt.inHeap src.cell := by
        rw [hvt]; exact hcms
      have hw := wf_copy_assign_entry hcms' hcmd
      rw [hE] at hw
      exact hw
    · rw [if_neg hvt] at hop
      rcases hD : (get_vtable_impl self.vt.inHeap).destroy self.cell h with ⟨h1, ev1⟩
      rw [hD] at hop
      dsimp only at hop
      cases hb : (get_vtable_impl src.vt.inHeap).copy src.cell h1 with
      | error e => rw [hb] at hop; cases hop
      | ok v =>
        obtain ⟨cell2, h2, ev2⟩ := v
        rw [hb] at hop
        simp only [Outcome.ok.injEq, Prod.mk.injEq] at hop
        obtain ⟨hc, hh, hev⟩ := hop
        subst hc hh
        refine ⟨hvts, ?_⟩
        have hcms1 := cell_matches_destroy_other self.vt.inHeap hdisj hcms
        rw [hD] at hcms1
        exact wf_copy_entry hcms1 hb

/-- Container move assignment preserves the invariant, on every path. -/
theorem wf_pv_move_assign {M : Model} {self src : Container} {selfEq : Bool} {h : Heap}
    (hwfd : WF M self h) (hwfs : WF M src h) (hdisj : cells_disjoint self src) :
    WF M (pv_move_assign self src selfEq h).1 (pv_move_assign self src selfEq h).2.2.1 := by
  obtain ⟨hvtd, hcmd⟩ := hwfd
  obtain ⟨hvts, hcms⟩ := hwfs
  unfold pv_move_assign
  cases selfEq with
  | true =>
    rw [if_pos (by decide : true = true)]
    exact ⟨hvtd, hcmd⟩
  | false =>
    rw [if_neg (by decide : ¬(false = true))]
    by_cases hvt : self.vt = src.vt
    · rw [if_pos hvt]
      try dsimp only
      refine ⟨hvtd, ?_⟩
      have hcms' : cell_matches h self.vt.tid self.vt.inHeap src.cell := by
        rw [hvt]; exact hcms
      exact wf_move_assign_entry hcms' hcmd
    · rw [if_neg hvt]
      rcases hD : (get_vtable_impl self.vt.inHeap).destroy self.cell h with ⟨h1, ev1⟩
      try dsimp only
      refine ⟨hvts, ?_⟩
      have hcms1 := cell_matches_destroy_other self.vt.inHeap hdisj hcms
      rw [hD] at hcms1
      exact wf_move_entry hcms1

/-- Raw-value copy assignment preserves the invariant, on every path. -/
theorem wf_pv_copy_assign_raw {M : Model} {self : Container} {r : RawVal} {h : Heap}
    {c : Container} {h' : Heap} {ev : List Ev} (hwfd : WF M self h)
    (hop : pv_copy_assign_raw M self r h = .ok (c, h', ev)) : WF M c h' := by
  obtain ⟨hvtd, hcmd⟩ := hwfd
  unfold pv_copy_assign_raw at hop
  by_cases hr : (M.rtti && !(r.dyntid == r.tid)) = true
  · rw [if_pos hr] at hop; cases hop
  · rw [if_neg hr] at hop
    by_cases hvt : self.vt = M.getVT r.tid
    · rw [if_pos hvt] at hop
      rcases hE : (get_vtable_impl self.vt.inHeap).copy_assign_raw ⟨r.tid, r.val⟩ self.cell h
        with ⟨cell2, h2, ev2⟩
      rw [hE] at hop
      simp only [Outcome.ok.injEq, Prod.mk.injEq] at hop
      obtain ⟨hc, hh, hev⟩ := hop
      subst hc hh
      refine ⟨hvtd, ?_⟩
      have hw := wf_copy_assign_raw_entry ⟨r.tid, r.val⟩ hcmd
      rw [hE] at hw
      exact hw
    · rw [if_neg hvt] at hop
      rcases hD : (get_vtable_impl self.vt.inHeap).destroy self.cell h with ⟨h1, ev1⟩
      rw [hD] at hop
      dsimp only at hop
      cases hb : (get_vtable_impl (M.getVT r.tid).inHeap).copy_raw ⟨r.tid, r.val⟩ h1 with
      | error e => rw [hb] at hop; cases hop
      | ok v =>
        obtain ⟨cell2, h2, ev2⟩ := v
        rw [hb] at hop
        simp only [Outcome.ok.injEq, Prod.mk.injEq] at hop
        obtain ⟨hc, hh, hev⟩ := hop
        subst hc hh
        have hw := wf_copy_raw_entry hb rfl
        exact ⟨rfl, hw⟩

/-- Raw-value move assignment preserves the invariant, on every path that
returns normally. -/
theorem wf_pv_move_assign_raw {M : Model} {self : Container} {r : RawVal} {h : Heap}
    {c : Container} {h' : Heap} {ev : List Ev} (hwfd : WF M self h)
    (hop : pv_move_assign_raw M self r h = .ok (c, h', ev)) : WF M c h' := by
  obtain ⟨hvtd, hcmd⟩ := hwfd
  unfold pv_move_assign_raw at hop
  by_cases hr : (M.rtti && !(r.dyntid == r.tid)) = true
  · rw [if_pos hr] at hop; cases hop
  · rw [if_neg hr] at hop
    by_cases hvt : self.vt = M.getVT r.tid
    · rw [if_pos hvt] at hop
      rcases hE : (get_vtable_impl self.vt.inHeap).move_assign_raw ⟨r.tid, r.val⟩ self.cell h
        with ⟨cell2, h2, ev2⟩
      rw [hE] at hop
      simp only [Outcome.ok.injEq, Prod.mk.injEq] at hop
      obtain ⟨hc, hh, hev⟩ := hop
      subst hc hh
      refine ⟨hvtd, ?_⟩
      have hw := wf_move_assign_raw_entry ⟨r.tid, r.val⟩ hcmd
      rw [hE] at hw
      exact hw
    · rw [if_neg hvt] at hop
      rcases hD : (get_vtable_impl self.vt.inHeap).destroy self.cell h with ⟨h1, ev1⟩
      rw [hD] at hop
      dsimp only at hop
      cases hb : (get_vtable_impl (M.getVT r.tid).inHeap).move_raw ⟨r.tid, r.val⟩ h1 with
      | terminated => rw [hb] at hop; cases hop
      | thrown e => rw [hb] at hop; cases hop
      | ok v =>
        obtain ⟨cell2, h2, ev2⟩ := v
        rw [hb] at hop
        simp only [Outcome.ok.injEq, Prod.mk.injEq] at hop
        obtain ⟨hc, hh, hev⟩ := hop
        subst hc hh
        have hw := wf_move_raw_entry hb rfl
        exact ⟨rfl, hw⟩

/-- `emplace` preserves the invariant, rebuilding the cell for the new
type. -/
theorem wf_pv_emplace {M : Model} {self : Container} {o : Obj} {h : Heap}
    {c : Container} {h' : Heap} {ev : List Ev}
    (hop : pv_emplace M self o h = .ok (c, h', ev)) : WF M c h' := by
  unfold pv_emplace at hop
  rcases hD : (get_vtable_impl self.vt.inHeap).destroy self.cell h with ⟨h1, ev1⟩
  rw [hD] at hop
  dsimp only at hop
  cases hb : sbo_build M.sboSize M.sboAlignment (M.env o.tid) o Ev.construct h1 with
  | error e => rw [hb] at hop; cases hop
  | ok v =>
    obtain ⟨cell2, h2, ev2⟩ := v
    rw [hb] at hop
    simp only [Outcome.ok.injEq, Prod.mk.injEq] at hop
    obtain ⟨hc, hh, hev⟩ := hop
    subst hc hh
    have hcm := wf_build M hb rfl
    exact ⟨rfl, hcm⟩

/-- Events of the `destroy` entry on a matching cell: one destructor run,
plus one deallocation for heap storage. -/
theorem destroy_events {h : Heap} {tid : Nat} {k : Bool} {c : Cell}
    (hcm : cell_matches h tid k c) :
    ((get_vtable_impl k).destroy c h).2
      = if k then [Ev.destroyed tid, Ev.dealloc] else [Ev.destroyed tid] := by
  cases k with
  | false =>
    cases c with
    | local_buffer o =>
      simp only [get_vtable_impl, Bool.false_eq_true, ite_false, get_vtable_local,
        local_storage.destroy]
      rw [hcm.2]
    | heap_buffer p =>
      cases p with
      | none => exact hcm.elim
      | some a => exact Bool.noConfusion hcm.1
  | true =>
    cases c with
    | local_buffer o => exact Bool.noConfusion hcm.1
    | heap_buffer p =>
      cases p with
      | none => exact hcm.elim
      | some a =>
        obtain ⟨-, o, hm, ht⟩ := hcm
        simp only [get_vtable_impl, ite_true, get_vtable_heap, heap_storage.destroy, hm,
          ite_true]
        rw [ht]

/-- Events of the `copy` entry on a matching cell: one copy construction,
preceded by one allocation for heap storage. -/
theorem copy_events {h : Heap} {tid : Nat} {k : Bool} {c c' : Cell} {h' : Heap}
    {ev : List Ev} (hcm : cell_matches h tid k c)
    (hc : (get_vtable_impl k).copy c h = .ok (c', h', ev)) :
    ev = if k then [Ev.alloc, Ev.copyCtor tid] else [Ev.copyCtor tid] := by
  cases k with
  | false =>
    cases c with
    | local_buffer o =>
      simp only [get_vtable_impl, Bool.false_eq_true, ite_false, get_vtable_local,
        local_storage.copy, Except.ok.injEq, Prod.mk.injEq] at hc
      rw [← hc.2.2, hcm.2]
      simp
    | heap_buffer p =>
      cases p with
      | none => exact hcm.elim
      | some a => exact Bool.noConfusion hcm.1
  | true =>
    cases c with
    | local_buffer o => exact Bool.noConfusion hcm.1
    | heap_buffer p =>
      cases p with
      | none => exact hcm.elim
      | some a =>
        obtain ⟨-, o, hm, ht⟩ := hcm
        cases halloc : Heap.alloc h o with
        | error e =>
          simp only [get_vtable_impl, ite_true, get_vtable_heap, heap_storage.copy,
            hm, halloc] at hc
          cases hc
        | ok v =>
          obtain ⟨q, h2⟩ := v
          simp only [get_vtable_impl, ite_true, get_vtable_heap, heap_storage.copy,
            hm, halloc, Except.ok.injEq, Prod.mk.injEq] at hc
          rw [← hc.2.2, ht]
          simp

/-- Events of the `move` entry on a matching cell: one move construction for
inline storage, nothing at all for heap storage. -/
theorem move_events {h : Heap} {tid : Nat} {k : Bool} {c : Cell}
    (hcm : cell_matches h tid k c) :
    ((get_vtable_impl k).move c).2.2 = if k then [] else [Ev.moveCtor tid] := by
  cases k with
  | false =>
    cases c with
    | local_buffer o =>
      simp only [get_vtable_impl, Bool.false_eq_true, ite_false, get_vtable_local,
        local_storage.move]
      rw [hcm.2]
    | heap_buffer p =>
      cases p with
      | none => exact hcm.elim
      | some a => exact Bool.noConfusion hcm.1
  | true =>
    cases c with
    | local_buffer o => exact Bool.noConfusion hcm.1
    | heap_buffer p =>
      cases p with
      | none => exact hcm.elim
      | some a => rfl

/-- Events of the `copy_raw` entry: one copy construction, preceded by one
allocation for heap storage. -/
theorem copy_raw_events {h : Heap} {k : Bool} {o : Obj} {c' : Cell} {h' : Heap}
    {ev : List Ev} (hc : (get_vtable_impl k).copy_raw o h = .ok (c', h', ev)) :
    ev = if k then [Ev.alloc, Ev.copyCtor o.tid] else [Ev.copyCtor o.tid] := by
  cases k with
  | false =>
    simp only [get_vtable_impl, Bool.false_eq_true, ite_false, get_vtable_local,
      local_storage.copy, Except.ok.injEq, Prod.mk.injEq] at hc
    simp [← hc.2.2]
  | true =>
    cases halloc : Heap.alloc h o with
    | error e =>
      simp only [get_vtable_impl, ite_true, get_vtable_heap, heap_storage.copy_raw,
        halloc] at hc
      cases hc
    | ok v =>
      obtain ⟨q, h2⟩ := v
      simp only [get_vtable_impl, ite_true, get_vtable_heap, heap_storage.copy_raw,
        halloc, Except.ok.injEq, Prod.mk.injEq] at hc
      simp [← hc.2.2]

/-- Events of the `move_raw` entry when it completes: one move construction,
preceded by one allocation for heap storage. -/
theorem move_raw_events {h : Heap} {k : Bool} {o : Obj} {c' : Cell} {h' : Heap}
    {ev : List Ev} (hc : (get_vtable_impl k).move_raw o h = .ok (c', h', ev)) :
    ev = if k then [Ev.alloc, Ev.moveCtor o.tid] else [Ev.moveCtor o.tid] := by
  cases k with
  | false =>
    simp only [get_vtable_impl, Bool.false_eq_true, ite_false, get_vtable_local,
      local_storage.move, Outcome.ok.injEq, Prod.mk.injEq] at hc
    simp [← hc.2.2]
  | true =>
    cases halloc : Heap.alloc h o with
    | error e =>
      simp only [get_vtable_impl, ite_true, get_vtable_heap, heap_storage.move_raw,
        halloc] at hc
      cases hc
    | ok v =>
      obtain ⟨q, h2⟩ := v
      simp only [get_vtable_impl, ite_true, get_vtable_heap, heap_storage.move_raw,
        halloc, Outcome.ok.injEq, Prod.mk.injEq] at hc
      simp [← hc.2.2]

/-- Result of the `copy_assign` entry on matching cells: exactly one copy
assignment of the contained type, and for heap storage the destination's
pointer is untouched (assignment through the pointee, no reallocation). -/
theorem copy_assign_result {h : Heap} {tid : Nat} {k : Bool} {s d : Cell}
    (hs : cell_matches h tid k s) (hd : cell_matches h tid k d) :
    ((get_vtable_impl k).copy_assign s d h).2.2 = [Ev.copyAsgn tid] ∧
    (k = true → ((get_vtable_impl k).copy_assign s d h).1 = d) := by
  cases k with
  | false =>
    cases s with
    | heap_buffer p =>
      cases p with
      | none => exact hs.elim
      | some a => exact Bool.noConfusion hs.1
    | local_buffer so =>
      cases d with
      | heap_buffer p =>
        cases p with
        | none => exact hd.elim
        | some a => exact Bool.noConfusion hd.1
      | local_buffer dObj =>
        constructor
        · simp only [get_vtable_impl, Bool.false_eq_true, ite_false, get_vtable_local,
            local_storage.copy_assign]
          rw [hd.2]
        · intro hk; cases hk
  | true =>
    cases s with
    | local_buffer so => exact Bool.noConfusion hs.1
    | heap_buffer sp =>
      cases sp with
      | none => exact hs.elim
      | some sa =>
        cases d with
        | local_buffer dObj => exact Bool.noConfusion hd.1
        | heap_buffer dp =>
          cases dp with
          | none => exact hd.elim
          | some da =>
            obtain ⟨-, so, hmsa, hso⟩ := hs
            obtain ⟨-, dObj, hmda, hdo⟩ := hd
            constructor
            · simp only [get_vtable_impl, ite_true, get_vtable_heap,
                heap_storage.copy_assign, hmsa, hmda]
              rw [hdo]
            · intro hk
              simp only [get_vtable_impl, ite_true, get_vtable_heap,
                heap_storage.copy_assign, hmsa, hmda]

/-- Result of the `move_assign` entry on matching cells: one move assignment
for inline storage; for heap storage a pure pointer swap with no events. -/
theorem move_assign_result {h : Heap} {tid : Nat} {k : Bool} {s d : Cell}
    (hs : cell_matches h tid k s) (hd : cell_matches h tid k d) :
    ((get_vtable_impl k).move_assign s d).2.2
        = (if k then [] else [Ev.moveAsgn tid]) ∧
    (k = true → (get_vtable_impl k).move_assign s d = (d, s, [])) := by
  cases k with
  | false =>
    cases s with
    | heap_buffer p =>
      cases p with
      | none => exact hs.elim
      | some a => exact Bool.noConfusion hs.1
    | local_buffer so =>
      cases d with
      | heap_buffer p =>
        cases p with
        | none => exact hd.elim
        | some a => exact Bool.noConfusion hd.1
      | local_buffer dObj =>
        constructor
        · simp only [get_vtable_impl, Bool.false_eq_true, ite_false, get_vtable_local,
            local_storage.move_assign, if_false]
          rw [hd.2]
        · intro hk; cases hk
  | true =>
    cases s with
    | local_buffer so => exact Bool.noConfusion hs.1
    | heap_buffer sp =>
      cases sp with
      | none => exact hs.elim
      | some sa =>
        cases d with
        | local_buffer dObj => exact Bool.noConfusion hd.1
        | heap_buffer dp =>
          cases dp with
          | none => exact hd.elim
          | some da => exact ⟨rfl, fun _ => rfl⟩

/-- Result of the `copy_assign_raw` entry on a matching destination: one copy
assignment, destination pointer untouched for heap storage. -/
theorem copy_assign_raw_result {h : Heap} {tid : Nat} {k : Bool} (o : Obj) {d : Cell}
    (hd : cell_matches h tid k d) :
    ((get_vtable_impl k).copy_assign_raw o d h).2.2 = [Ev.copyAsgn tid] ∧
    (k = true → ((get_vtable_impl k).copy_assign_raw o d h).1 = d) := by
  cases k with
  | false =>
    cases d with
    | heap_buffer p =>
      cases p with
      | none => exact hd.elim
      | some a => exact Bool.noConfusion hd.1
    | local_buffer dObj =>
      constructor
      · simp only [get_vtable_impl, Bool.false_eq_true, ite_false, get_vtable_local,
          local_storage.copy_assign]
        rw [hd.2]
      · intro hk; cases hk
  | true =>
    cases d with
    | local_buffer dObj => exact Bool.noConfusion hd.1
    | heap_buffer dp =>
      cases dp with
      | none => exact hd.elim
      | some da =>
        obtain ⟨-, dObj, hmda, hdo⟩ := hd
        constructor
        · simp only [get_vtable_impl, ite_true, get_vtable_heap,
            heap_storage.copy_assign_raw, hmda]
          rw [hdo]
        · intro hk
          simp only [get_vtable_impl, ite_true, get_vtable_heap,
            heap_storage.copy_assign_raw, hmda]

/-- Result of the `move_assign_raw` entry on a matching destination: one move
assignment, destination pointer untouched for heap storage. -/
theorem move_assign_raw_result {h : Heap} {tid : Nat} {k : Bool} (o : Obj) {d : Cell}
    (hd : cell_matches h tid k d) :
    ((get_vtable_impl k).move_assign_raw o d h).2.2 = [Ev.moveAsgn tid] ∧
    (k = true → ((get_vtable_impl k).move_assign_raw o d h).1 = d) := by
  cases k with
  | false =>
    cases d with
    | heap_buffer p =>
      cases p with
      | none => exact hd.elim
      | some a => exact Bool.noConfusion hd.1
    | local_buffer dObj =>
      constructor
      · simp only [get_vtable_impl, Bool.false_eq_true, ite_false, get_vtable_local,
          local_storage.move_assign]
        rw [hd.2]
      · intro hk; cases hk
  | true =>
    cases d with
    | local_buffer dObj => exact Bool.noConfusion hd.1
    | heap_buffer dp =>
      cases dp with
      | none => exact hd.elim
      | some da =>
        obtain ⟨-, dObj, hmda, hdo⟩ := hd
        constructor
        · simp only [get_vtable_impl, ite_true, get_vtable_heap,
            heap_storage.move_assign_raw, hmda]
          rw [hdo]
        · intro hk
          simp only [get_vtable_impl, ite_true, get_vtable_heap,
            heap_storage.move_assign_raw, hmda]

/-- C3: every live container holds exactly one valid object and the
referenced table always matches the cell's concrete type and storage kind:
each constructor establishes the invariant `WF`, and every assignment and
emplacement preserves it, whenever the operation completes normally
(container sources themselves well-formed and owning disjoint heap
blocks). -/
theorem C3_never_empty_and_table_matches (M : Model) :
    (∀ isMove r h c h' ev, pv_ctor_value M isMove r h = .ok (c, h', ev) → WF M c h') ∧
    (∀ o h c h' ev, pv_ctor_in_place M o h = .ok (c, h', ev) → WF M c h') ∧
    (∀ src h c h' ev, WF M src h → pv_copy_ctor src h = .ok (c, h', ev) → WF M c h') ∧
    (∀ src h, WF M src h → WF M (pv_move_ctor src).1 h) ∧
    (∀ self src selfEq h c h' ev, WF M self h → WF M src h → cells_disjoint self src →
      pv_copy_assign self src selfEq h = .ok (c, h', ev) → WF M c h') ∧
    (∀ self src selfEq h, WF M self h → WF M src h → cells_disjoint self src →
      WF M (pv_move_assign self src selfEq h).1 (pv_move_assign self src selfEq h).2.2.1) ∧
    (∀ self r h c h' ev, WF M self h →
      pv_copy_assign_raw M self r h = .ok (c, h', ev) → WF M c h') ∧
    (∀ self r h c h' ev, WF M self h →
      pv_move_assign_raw M self r h = .ok (c, h', ev) → WF M c h') ∧
    (∀ self o h c h' ev, pv_emplace M self o h = .ok (c, h', ev) → WF M c h') :=
  ⟨fun _ _ _ _ _ _ hop => wf_pv_ctor_value hop,
   fun _ _ _ _ _ hop => wf_pv_ctor_in_place hop,
   fun _ _ _ _ _ hwf hop => wf_pv_copy_ctor hwf hop,
   fun _ _ hwf => wf_pv_move_ctor hwf,
   fun _ _ _ _ _ _ _ hd hs hj hop => wf_pv_copy_assign hd hs hj hop,
   fun _ _ _ _ hd hs hj => wf_pv_move_assign hd hs hj,
   fun _ _ _ _ _ _ hd hop => wf_pv_copy_assign_raw hd hop,
   fun _ _ _ _ _ _ hd hop => wf_pv_move_assign_raw hd hop,
   fun _ _ _ _ _ _ hop => wf_pv_emplace hop⟩

/-- C3 witness: in-place construction of the small fixture type yields a
well-formed container. -/
theorem C3_never_empty_and_table_matches_witness :
    WF M0 ⟨⟨0, false⟩, Cell.local_buffer ⟨0, 9⟩⟩ heap0 :=
  (C3_never_empty_and_table_matches M0).2.1 ⟨0, 9⟩ heap0
    ⟨⟨0, false⟩, Cell.local_buffer ⟨0, 9⟩⟩ heap0 [Ev.construct 0] rfl

/-- A type whose storage-kind decision is inline is
nothrow-move-constructible. -/
theorem nothrow_of_inline {M : Model} {tid : Nat} (hs : M.storeInHeap tid = false) :
    (M.env tid).nothrowMove = true := by
  unfold Model.storeInHeap store_in_heap at hs
  cases hm : (M.env tid).nothrowMove
  · rw [hm] at hs; simp at hs
  · rfl

/-- C4: assignment dispatch.  Fast paths: when the destination's table equals
the table describing the incoming value, the existing object is assigned in
place through the table's assign entry — exactly one assignment event (none
at all for the heap move-assign pointer swap), no destroy, no rebuild, and
no (re)allocation; the heap-stored destination keeps its very pointer (or,
for move, swaps it with the source's).  Slow paths: when the tables differ,
the destination's object is destroyed via its current table, the table
pointer is switched to the incoming value's, and a fresh object is copy- or
move-built into the empty cell — the event trace is exactly the destroy
events followed by the build events. -/
theorem C4_assignment_fast_and_slow_paths (M : Model) (self src : Container)
    (r : RawVal) (h : Heap) (hwfd : WF M self h) :
    (WF M src h → self.vt = src.vt →
      ∃ C H, pv_copy_assign self src false h
          = .ok (⟨self.vt, C⟩, H, [Ev.copyAsgn self.vt.tid]) ∧
        (self.vt.inHeap = true → C = self.cell)) ∧
    (WF M src h → self.vt = src.vt →
      ∃ C sA, pv_move_assign self src false h
          = (⟨self.vt, C⟩, sA, h,
            if self.vt.inHeap then [] else [Ev.moveAsgn self.vt.tid]) ∧
        (self.vt.inHeap = true → C = src.cell ∧ sA = self.cell)) ∧
    (r.dyntid = r.tid → self.vt = M.getVT r.tid →
      ∃ C H, pv_copy_assign_raw M self r h
          = .ok (⟨self.vt, C⟩, H, [Ev.copyAsgn self.vt.tid]) ∧
        (self.vt.inHeap = true → C = self.cell)) ∧
    (r.dyntid = r.tid → self.vt = M.getVT r.tid →
      ∃ C H, pv_move_assign_raw M self r h
          = .ok (⟨self.vt, C⟩, H, [Ev.moveAsgn self.vt.tid]) ∧
        (self.vt.inHeap = true → C = self.cell)) ∧
    (WF M src h → cells_disjoint self src → self.vt ≠ src.vt →
      ∀ c h' ev, pv_copy_assign self src false h = .ok (c, h', ev) →
        c.vt = src.vt ∧ ev
          = (if self.vt.inHeap then [Ev.destroyed self.vt.tid, Ev.dealloc]
            else [Ev.destroyed self.vt.tid])
            ++ (if src.vt.inHeap then [Ev.alloc, Ev.copyCtor src.vt.tid]
              else [Ev.copyCtor src.vt.tid])) ∧
    (WF M src h → self.vt ≠ src.vt →
      (pv_move_assign self src false h).1.vt = src.vt ∧
      (pv_move_assign self src false h).2.2.2
        = (if self.vt.inHeap then [Ev.destroyed self.vt.tid, Ev.dealloc]
          else [Ev.destroyed self.vt.tid])
          ++ (if src.vt.inHeap then [] else [Ev.moveCtor src.vt.tid])) ∧
    (r.dyntid = r.tid → self.vt ≠ M.getVT r.tid →
      ∀ c h' ev, pv_copy_assign_raw M self r h = .ok (c, h', ev) →
        c.vt = M.getVT r.tid ∧ ev
          = (if self.vt.inHeap then [Ev.destroyed self.vt.tid, Ev.dealloc]
            else [Ev.destroyed self.vt.tid])
            ++ (if (M.getVT r.tid).inHeap then [Ev.alloc, Ev.copyCtor r.tid]
              else [Ev.copyCtor r.tid])) ∧
    (r.dyntid = r.tid → self.vt ≠ M.getVT r.tid →
      ∀ c h' ev, pv_move_assign_raw M self r h = .ok (c, h', ev) →
        c.vt = M.getVT r.tid ∧ ev
          = (if self.vt.inHeap then [Ev.destroyed self.vt.tid, Ev.dealloc]
            else [Ev.destroyed self.vt.tid])
            ++ (if (M.getVT r.tid).inHeap then [Ev.alloc, Ev.moveCtor r.tid]
              else [Ev.moveCtor r.tid])) := by
  obtain ⟨hvtd, hcmd⟩ := hwfd
  refine ⟨?_, ?_, ?_, ?_, ?_, ?_, ?_, ?_⟩
  · intro hwfs hvt
    obtain ⟨-, hcms⟩ := hwfs
    have hcms' : cell_matches h self.vt.tid self.vt.inHeap src.cell := by
      rw [hvt]; exact hcms
    obtain ⟨hev, hptr⟩ := copy_assign_result hcms' hcmd
    refine ⟨((get_vtable_impl self.vt.inHeap).copy_assign src.cell self.cell h).1,
      ((get_vtable_impl self.vt.inHeap).copy_assign src.cell self.cell h).2.1, ?_, hptr⟩
    unfold pv_copy_assign
    rw [if_neg (by decide : ¬(false = true)), if_pos hvt]
    try dsimp only
    rw [hev]
  · intro hwfs hvt
    obtain ⟨-, hcms⟩ := hwfs
    have hcms' : cell_matches h self.vt.tid self.vt.inHeap src.cell := by
      rw [hvt]; exact hcms
    obtain ⟨hev, hswap⟩ := move_assign_result hcms' hcmd
    refine ⟨((get_vtable_impl self.vt.inHeap).move_assign src.cell self.cell).2.1,
      ((get_vtable_impl self.vt.inHeap).move_assign src.cell self.cell).1, ?_, ?_⟩
    · unfold pv_move_assign
      rw [if_neg (by decide : ¬(false = true)), if_pos hvt]
      try dsimp only
      rw [hev]
    · intro hk
      rw [hswap hk]
      exact ⟨rfl, rfl⟩
  · intro hdt hvt
    have hr : ¬((M.rtti && !(r.dyntid == r.tid)) = true) := by simp [hdt]
    obtain ⟨hev, hptr⟩ := copy_assign_raw_result (⟨r.tid, r.val⟩ : Obj) hcmd
    refine ⟨((get_vtable_impl self.vt.inHeap).copy_assign_raw ⟨r.tid, r.val⟩ self.cell h).1,
      ((get_vtable_impl self.vt.inHeap).copy_assign_raw ⟨r.tid, r.val⟩ self.cell h).2.1,
      ?_, hptr⟩
    unfold pv_copy_assign_raw
    rw [if_neg hr, if_pos hvt]
    try dsimp only
    rw [hev]
  · intro hdt hvt
    have hr : ¬((M.rtti && !(r.dyntid == r.tid)) = true) := by simp [hdt]
    obtain ⟨hev, hptr⟩ := move_assign_raw_result (⟨r.tid, r.val⟩ : Obj) hcmd
    refine ⟨((get_vtable_impl self.vt.inHeap).move_assign_raw ⟨r.tid, r.val⟩ self.cell h).1,
      ((get_vtable_impl self.vt.inHeap).move_assign_raw ⟨r.tid, r.val⟩ self.cell h).2.1,
      ?_, hptr⟩
    unfold pv_move_assign_raw
    rw [if_neg hr, if_pos hvt]
    try dsimp only
    rw [hev]
  · intro hwfs hdisj hvt c h' ev hop
    obtain ⟨-, hcms⟩ := hwfs
    unfold pv_copy_assign at hop
    rw [if_neg (by decide : ¬(false = true)), if_neg hvt] at hop
    rcases hD : (get_vtable_impl self.vt.inHeap).destroy self.cell h with ⟨h1, ev1⟩
    rw [hD] at hop
    dsimp only at hop
    cases hb : (get_vtable_impl src.vt.inHeap).copy src.cell h1 with
    | error e => rw [hb] at hop; cases hop
    | ok v =>
      obtain ⟨cell2, h2, ev2⟩ := v
      rw [hb] at hop
      simp only [Outcome.ok.injEq, Prod.mk.injEq] at hop
      obtain ⟨hc, hh, hev⟩ := hop
      subst hc hh hev
      refine ⟨rfl, ?_⟩
      have hev1 : ev1 = (if self.vt.inHeap then [Ev.destroyed self.vt.tid, Ev.dealloc]
          else [Ev.destroyed self.vt.tid]) := by
        have hdev := destroy_events hcmd
        rw [hD] at hdev
        exact hdev
      have hcms1 := cell_matches_destroy_other self.vt.inHeap hdisj hcms
      rw [hD] at hcms1
      have hev2 := copy_events hcms1 hb
      rw [hev1, hev2]
  · intro hwfs hvt
    obtain ⟨-, hcms⟩ := hwfs
    unfold pv_move_assign
    rw [if_neg (by decide : ¬(false = true)), if_neg hvt]
    rcases hD : (get_vtable_impl self.vt.inHeap).destroy self.cell h with ⟨h1, ev1⟩
    try dsimp only
    have hev1 : ev1 = (if self.vt.inHeap then [Ev.destroyed self.vt.tid, Ev.dealloc]
        else [Ev.destroyed self.vt.tid]) := by
      have hdev := destroy_events hcmd
      rw [hD] at hdev
      exact hdev
    have hev2 := move_events hcms
    constructor
    · rfl
    · show ev1 ++ ((get_vtable_impl src.vt.inHeap).move src.cell).2.2 = _
      rw [hev1, hev2]
  · intro hdt hvt c h' ev hop
    have hr : ¬((M.rtti && !(r.dyntid == r.tid)) = true) := by simp [hdt]
    unfold pv_copy_assign_raw at hop
    rw [if_neg hr, if_neg hvt] at hop
    rcases hD : (get_vtable_impl self.vt.inHeap).destroy self.cell h with ⟨h1, ev1⟩
    rw [hD] at hop
    dsimp only at hop
    cases hb : (get_vtable_impl (M.getVT r.tid).inHeap).copy_raw ⟨r.tid, r.val⟩ h1 with
    | error e => rw [hb] at hop; cases hop
    | ok v =>
      obtain ⟨cell2, h2, ev2⟩ := v
      rw [hb] at hop
      simp only [Outcome.ok.injEq, Prod.mk.injEq] at hop
      obtain ⟨hc, hh, hev⟩ := hop
      subst hc hh hev
      refine ⟨rfl, ?_⟩
      have hev1 : ev1 = (if self.vt.inHeap then [Ev.destroyed self.vt.tid, Ev.dealloc]
          else [Ev.destroyed self.vt.tid]) := by
        have hdev := destroy_events hcmd
        rw [hD] at hdev
        exact hdev
      have hev2 := copy_raw_events hb
      rw [hev1, hev2]
  · intro hdt hvt c h' ev hop
    have hr : ¬((M.rtti && !(r.dyntid == r.tid)) = true) := by simp [hdt]
    unfold pv_move_assign_raw at hop
    rw [if_neg hr, if_neg hvt] at hop
    rcases hD : (get_vtable_impl self.vt.inHeap).destroy self.cell h with ⟨h1, ev1⟩
    rw [hD] at hop
    dsimp only at hop
    cases hb : (get_vtable_impl (M.getVT r.tid).inHeap).move_raw ⟨r.tid, r.val⟩ h1 with
    | terminated => rw [hb] at hop; cases hop
    | thrown e => rw [hb] at hop; cases hop
    | ok v =>
      obtain ⟨cell2, h2, ev2⟩ := v
      rw [hb] at hop
      simp only [Outcome.ok.injEq, Prod.mk.injEq] at hop
      obtain ⟨hc, hh, hev⟩ := hop
      subst hc hh hev
      refine ⟨rfl, ?_⟩
      have hev1 : ev1 = (if self.vt.inHeap then [Ev.destroyed self.vt.tid, Ev.dealloc]
          else [Ev.destroyed self.vt.tid]) := by
        have hdev := destroy_events hcmd
        rw [hD] at hdev
        exact hdev
      have hev2 := move_raw_events hb
      rw [hev1, hev2]

/-- C4 witness: same-type copy assignment of two small-type containers takes
the fast path. -/
theorem C4_assignment_fast_and_slow_paths_witness :
    ∃ C H, pv_copy_assign cS cS8 false heap0
        = .ok (⟨cS.vt, C⟩, H, [Ev.copyAsgn cS.vt.tid]) ∧
      (cS.vt.inHeap = true → C = cS.cell) :=
  (C4_assignment_fast_and_slow_paths M0 cS cS8 ⟨0, 0, 4⟩ heap0 ⟨rfl, rfl, rfl⟩).1
    ⟨rfl, rfl, rfl⟩ rfl

/-- C10: container move construction and container-to-container move
assignment are declared `noexcept` and the declaration is honored: both are
total functions of the model (no exceptional outcome in their result types),
they never allocate, and the only object operations they invoke are moves of
types the storage-kind decision certifies nothrow-move-constructible —
besides destructor and deallocation work on the replaced destination, which
cannot throw.  Every event of either operation satisfies the non-throwing
predicate below. -/
theorem C10_move_operations_noexcept (M : Model) (self src : Container)
    (selfEq : Bool) (h : Heap) (hwfd : WF M self h) (hwfs : WF M src h) :
    ((pv_move_ctor src).2.2.all
      (fun e => match e with
        | Ev.moveCtor t => (M.env t).nothrowMove
        | Ev.moveAsgn t => (M.env t).nothrowMove
        | Ev.destroyed _ => true
        | Ev.dealloc => true
        | _ => false) = true) ∧
    ((pv_move_assign self src selfEq h).2.2.2.all
      (fun e => match e with
        | Ev.moveCtor t => (M.env t).nothrowMove
        | Ev.moveAsgn t => (M.env t).nothrowMove
        | Ev.destroyed _ => true
        | Ev.dealloc => true
        | _ => false) = true) := by
  obtain ⟨hvtd, hcmd⟩ := hwfd
  obtain ⟨hvts, hcms⟩ := hwfs
  have hnts : src.vt.inHeap = false → (M.env src.vt.tid).nothrowMove = true := by
    intro hk
    exact nothrow_of_inline (by rw [← hvts, hk])
  have hntd : self.vt.inHeap = false → (M.env self.vt.tid).nothrowMove = true := by
    intro hk
    exact nothrow_of_inline (by rw [← hvtd, hk])
  constructor
  · show (((get_vtable_impl src.vt.inHeap).move src.cell).2.2).all _ = true
    rw [move_events hcms]
    cases hk : src.vt.inHeap with
    | true => simp
    | false => simp [hnts hk]
  · unfold pv_move_assign
    cases selfEq with
    | true =>
      rw [if_pos (by decide : true = true)]
      rfl
    | false =>
      rw [if_neg (by decide : ¬(false = true))]
      by_cases hvt : self.vt = src.vt
      · rw [if_pos hvt]
        try dsimp only
        show (((get_vtable_impl self.vt.inHeap).move_assign src.cell self.cell).2.2).all
          _ = true
        have hcms' : cell_matches h self.vt.tid self.vt.inHeap src.cell := by
          rw [hvt]; exact hcms
        rw [(move_assign_result hcms' hcmd).1]
        cases hk : self.vt.inHeap with
        | true => simp
        | false => simp [hntd hk]
      · rw [if_neg hvt]
        rcases hD : (get_vtable_impl self.vt.inHeap).destroy self.cell h with ⟨h1, ev1⟩
        try dsimp only
        show (ev1 ++ ((get_vtable_impl src.vt.inHeap).move src.cell).2.2).all _ = true
        have hev1 : ev1 = (if self.vt.inHeap then [Ev.destroyed self.vt.tid, Ev.dealloc]
            else [Ev.destroyed self.vt.tid]) := by
          have hdev := destroy_events hcmd
          rw [hD] at hdev
          exact hdev
        rw [hev1, move_events hcms, List.all_append]
        cases hk : src.vt.inHeap with
        | true => cases self.vt.inHeap <;> simp
        | false => cases self.vt.inHeap <;> simp [hnts hk]

/-- C10 witness: moving between two well-formed small-type containers emits
only certified-nothrow events. -/
theorem C10_move_operations_noexcept_witness :
    ((pv_move_ctor cS8).2.2.all
      (fun e => match e with
        | Ev.moveCtor t => (M0.env t).nothrowMove
        | Ev.moveAsgn t => (M0.env t).nothrowMove
        | Ev.destroyed _ => true
        | Ev.dealloc => true
        | _ => false) = true) ∧
    ((pv_move_assign cS cS8 false heap0).2.2.2.all
      (fun e => match e with
        | Ev.moveCtor t => (M0.env t).nothrowMove
        | Ev.moveAsgn t => (M0.env t).nothrowMove
        | Ev.destroyed _ => true
        | Ev.dealloc => true
        | _ => false) = true) :=
  C10_move_operations_noexcept M0 cS cS8 false heap0 ⟨rfl, rfl, rfl⟩ ⟨rfl, rfl, rfl⟩

/-- C5: for heap-stored types, container move is pointer-only: move
construction transfers the source's heap pointer to the destination and
nulls the source's pointer, and same-type move assignment swaps the two
pointers; both produce an empty event list (zero object copy/move
operations) and leave the heap untouched (zero allocations/deallocations).
The last conjunct records that `get_vtable` gives every type whose decision
resolves to heap exactly such a heap-kind table identity. -/
theorem C5_heap_move_pointer_only (tid : Nat) (p dp : Option Nat) (h : Heap)
    (M : Model) :
    pv_move_ctor ⟨⟨tid, true⟩, .heap_buffer p⟩
      = (⟨⟨tid, true⟩, .heap_buffer p⟩, Cell.heap_buffer none, []) ∧
    pv_move_assign ⟨⟨tid, true⟩, .heap_buffer dp⟩ ⟨⟨tid, true⟩, .heap_buffer p⟩ false h
      = (⟨⟨tid, true⟩, .heap_buffer p⟩, Cell.heap_buffer dp, h, []) ∧
    M.getVT tid = ⟨tid, M.storeInHeap tid⟩ := by
  refine ⟨rfl, ?_, rfl⟩
  simp [pv_move_assign, get_vtable_impl, get_vtable_heap, heap_storage.move_assign]

/-- C6: with RTTI available, constructing from or assigning a raw value
whose dynamic type differs from its declared static type throws
`bad_polymorphic_value` with the message "Value would slice".  The check
precedes every mutation, so on this path the operation returns no new
container/heap state at all: both operands are left unmodified. -/
theorem C6_slicing_rejected (M : Model) (self : Container) (r : RawVal)
    (isMove : Bool) (h : Heap) (hr : M.rtti = true) (hneq : r.dyntid ≠ r.tid) :
    pv_ctor_value M isMove r h = .thrown (.badPoly "Value would slice") ∧
    pv_copy_assign_raw M self r h = .thrown (.badPoly "Value would slice") ∧
    pv_move_assign_raw M self r h = .thrown (.badPoly "Value would slice") := by
  have hb : (r.dyntid == r.tid) = false := by
    simp [hneq]
  refine ⟨?_, ?_, ?_⟩ <;>
    simp [pv_ctor_value, pv_copy_assign_raw, pv_move_assign_raw, hr, hb]

/-- C6 witness: the fixture model rejects a raw value declared as the small
type whose dynamic type is the big type. -/
theorem C6_slicing_rejected_witness :
    pv_ctor_value M0 false ⟨0, 1, 7⟩ heap0 = .thrown (.badPoly "Value would slice") ∧
    pv_copy_assign_raw M0 cS ⟨0, 1, 7⟩ heap0 = .thrown (.badPoly "Value would slice") ∧
    pv_move_assign_raw M0 cS ⟨0, 1, 7⟩ heap0 = .thrown (.badPoly "Value would slice") :=
  C6_slicing_rejected M0 cS ⟨0, 1, 7⟩ false heap0 rfl (by decide)

/-- C7: on the constructor, copy-assignment and emplace paths an allocation
failure from building heap storage propagates to the caller as `bad_alloc`,
but on the raw move-assignment path of a heap-stored type it does not: the
allocation happens inside the vtable entry `heap_storage::move_raw`, which
the source declares `noexcept`, so `bad_alloc` escapes a `noexcept` function
and the program calls `std::terminate` — nothing reaches the caller.
Evaluated at the failing input: a container holding the small inline type,
move-assigned from a raw value of the big (heap-decided) type, with the
allocator exhausted. -/
theorem C7_alloc_failure_terminates_on_move_raw :
    pv_move_assign_raw M0 cS ⟨1, 1, 7⟩ heapNoFuel = .terminated ∧
    pv_copy_assign_raw M0 cS ⟨1, 1, 7⟩ heapNoFuel = .thrown .badAlloc ∧
    pv_ctor_value M0 true ⟨1, 1, 7⟩ heapNoFuel = .thrown .badAlloc ∧
    pv_ctor_in_place M0 ⟨1, 7⟩ heapNoFuel = .thrown .badAlloc ∧
    pv_emplace M0 cS ⟨1, 7⟩ heapNoFuel = .thrown .badAlloc :=
  ⟨rfl, rfl, rfl, rfl, rfl⟩

/-- C8: self-assignment (copy or move) is detected by the reference
identity check before any table dispatch and is a complete no-op: no
events, no heap change, and the destination's table pointer and cell are
returned unchanged — for arbitrary containers, well-formed or not. -/
theorem C8_self_assignment_noop (self src : Container) (h : Heap) :
    pv_copy_assign self src true h = .ok (self, h, []) ∧
    pv_move_assign self src true h = (self, src.cell, h, []) :=
  ⟨rfl, rfl⟩

/-- C9: the build-time policy check at each of the five
construction/assignment/emplacement sites: with `AllowAllocations = false`
it evaluates to the negation of the storage-kind decision, rejecting at
compile time exactly the concrete types whose decision resolves to heap, on
every path; with the default `AllowAllocations = true` it never rejects. -/
theorem C9_alloc_policy_static_reject (p : OpPath) (t : Ty) (s a : Nat) :
    path_static_assert p false t s a = !store_in_heap t s a ∧
    path_static_assert p true t s a = true := by
  cases p <;> exact ⟨by simp [path_static_assert], by simp [path_static_assert]⟩

end PolyVal
